import Mathlib

/-!
Shallow embedding of `halfsize.cpp`, a TGA image half-size converter,
together with theorems checking its natural-language specification.

Modelling conventions:
* `Byte` values are `Nat` known to be `< 256`; `Word` (uint16) arithmetic
  is `Nat` with explicit `% 65536` at each point where the C++ code
  performs a 16-bit store, and `% 256` where it narrows to 8 bits.
* A pixel is a list of its 8-bit components; a row is a list of pixels.
* The input `FILE` is a list of pixels (for the pixel pipeline) or a list
  of bytes plus an end-of-file flag (for the trailer copier).
* Fallible operations return `Except ExitStatus`.
-/

namespace HalfSize

/-- One TGA pixel, modelled as the list of its 8-bit components. -/
abbrev Pix := List Nat

/-- Exit statuses of the program (`enum class ExitStatus` in `halfsize.cpp`). -/
inductive ExitStatus where
  | ok
  | reserved1
  | reserved2
  | badArgs
  | badInputFile
  | badOutputFile
  | badInputFormat
  | unsupportedInputFormat
  deriving DecidableEq, Repr

/-- The numeric process exit code of each `ExitStatus` (its position in the
C++ enumeration, which starts at `ok = 0` and increments). -/
def ExitStatus.toCode : ExitStatus → Nat
  | .ok => 0
  | .reserved1 => 1
  | .reserved2 => 2
  | .badArgs => 3
  | .badInputFile => 4
  | .badOutputFile => 5
  | .badInputFormat => 6
  | .unsupportedInputFormat => 7

/-- `Header::ColorMapSpecification`: offset, size (both 16-bit) and
bits-per-entry (8-bit) of the color map. -/
structure ColorMapSpecification where
  offset : Nat
  size : Nat
  bpp : Nat
  deriving DecidableEq, Repr

/-- The packed descriptor byte of `Header::Specification`:
`attributeBits` (4 bits), `reserved` (1 bit), `direction` (1 bit),
`interleave` (2 bits). -/
structure Descriptor where
  attributeBits : Nat
  reserved : Nat
  direction : Nat
  interleave : Nat
  deriving DecidableEq, Repr

/-- `Header::Specification`: image dimensions and format. -/
structure Specification where
  xOrigin : Nat
  yOrigin : Nat
  width : Nat
  height : Nat
  bpp : Nat
  descriptor : Descriptor
  deriving DecidableEq, Repr

/-- The 18-byte TGA header. `colorMapType` and `type` are raw bytes as read
from the file (`ColorMapType::none = 0`, `ImageType::uncompressedTrueColorImage
= 2`, `ImageType::uncompressedGrayScaleImage = 3`). -/
structure Header where
  idLength : Nat
  colorMapType : Nat
  type : Nat
  colorMapSpecification : ColorMapSpecification
  specification : Specification
  deriving DecidableEq, Repr

/-- The byte value of `Header::ColorMapType::none`. -/
def colorMapTypeNone : Nat := 0

/-- The byte value of `Header::ImageType::uncompressedTrueColorImage`. -/
def uncompressedTrueColorImage : Nat := 2

/-- The byte value of `Header::ImageType::uncompressedGrayScaleImage`. -/
def uncompressedGrayScaleImage : Nat := 3

/-- `enforce(condition, exitStatus)` followed by the rest of the computation
`k`: if the condition fails, the program terminates with `exitStatus`. -/
def enforce (condition : Bool) (exitStatus : ExitStatus) (k : Except ExitStatus Unit) :
    Except ExitStatus Unit :=
  if condition then k else .error exitStatus

/-- `inspect(Header)` from `halfsize.cpp`: scrutinizes the header for errors
and compatibility with the converter, check for check in source order; the
first failing `enforce` terminates the program with its exit status. -/
def inspect (header : Header) : Except ExitStatus Unit :=
  enforce (header.colorMapType == colorMapTypeNone) .unsupportedInputFormat <|
  enforce (header.colorMapSpecification.offset == 0) .badInputFormat <|
  enforce (header.colorMapSpecification.size == 0) .badInputFormat <|
  enforce (header.colorMapSpecification.bpp == 0) .badInputFormat <|
  enforce (decide (header.specification.width > 0)) .badInputFormat <|
  enforce (decide (header.specification.height > 0)) .badInputFormat <|
  enforce (decide (header.specification.bpp ≥ 8)) .unsupportedInputFormat <|
  enforce (decide (header.specification.bpp ≤ 32)) .unsupportedInputFormat <|
  enforce (header.specification.bpp % 8 == 0) .unsupportedInputFormat <|
  enforce (header.specification.descriptor.attributeBits == 0
    || header.specification.descriptor.attributeBits == 8) .unsupportedInputFormat <|
  enforce (header.specification.descriptor.reserved == 0) .badInputFormat <|
  enforce (header.specification.descriptor.interleave == 0) .unsupportedInputFormat <|
  .ok ()

/-- Derivation of the output header from the input header (lines 336-340 of
`halfsize.cpp`): copy every field, then overwrite `xOrigin`, `yOrigin`,
`height` and `width` of the specification.  Each store narrows the promoted
`int` result back to a 16-bit `Word`, hence the `% 65536`. -/
def deriveOutputHeader (inHeader : Header) : Header :=
  { inHeader with
    specification := { inHeader.specification with
      xOrigin := (inHeader.specification.xOrigin >>> 1) % 65536
      yOrigin := (inHeader.specification.yOrigin >>> 1) % 65536
      height := ((inHeader.specification.height + 1) >>> 1) % 65536
      width := ((inHeader.specification.width + 1) >>> 1) % 65536 } }

/-- `readRow(inFile, row, inWidth)`: read `inWidth` pixels from the stream
(failing with `badInputFormat` if fewer are available, as `readObjects`
does), then duplicate the last decoded pixel into the padding slot
(`row.back() = row[inWidth - 1]`).  The returned row is the full content of
the reused buffer of length `(inWidth + 1) & ~1`, paired with the rest of
the stream. -/
def readRow (stream : List Pix) (inWidth : Nat) :
    Except ExitStatus (List Pix × List Pix) :=
  if inWidth ≤ stream.length then
    let decoded := stream.take inWidth
    .ok (decoded ++ (if inWidth % 2 = 1 then decoded.drop (inWidth - 1) else []),
      stream.drop inWidth)
  else
    .error .badInputFormat

/-- One output pixel of the box-filter reducer: for each of the
`numComponents` component indices, a `Word` accumulator starts at the bias
`accumulatedHalf = 2`, accumulates the component of the four input pixels
in order (`row0[2k]`, `row0[2k+1]`, `row1[2k]`, `row1[2k+1]`; each `+=` is
a 16-bit store, hence `% 65536`), and the result's `>> 2` is narrowed into
the 8-bit output component (hence `% 256`). -/
def reducePixel (numComponents : Nat) (a0 a1 b0 b1 : Pix) : Pix :=
  (List.range numComponents).map fun c =>
    (((((((2 + a0.getD c 0) % 65536
      + a1.getD c 0) % 65536
      + b0.getD c 0) % 65536
      + b1.getD c 0) % 65536)) >>> 2) % 256

/-- `convert(Row const&, Row const&, Row&)` from `halfsize.cpp`: the row
reducer.  The loop consumes two pixels of each input row per iteration and
produces one output pixel, until the first input row is exhausted. -/
def reduceRows (numComponents : Nat) : List Pix → List Pix → List Pix
  | a0 :: a1 :: r0, b0 :: b1 :: r1 =>
      reducePixel numComponents a0 a1 b0 b1 :: reduceRows numComponents r0 r1
  | _, _ => []

/-- The complete-row-pair loop of `convert<numComponents>(FILE*, FILE*, ...)`:
`i` remaining iterations, each reading two rows, reducing them and emitting
one output row.  Returns the emitted rows and the unconsumed stream. -/
def pipelineLoop (numComponents inWidth : Nat) :
    Nat → List Pix → Except ExitStatus (List (List Pix) × List Pix)
  | 0, stream => .ok ([], stream)
  | i + 1, stream =>
    match readRow stream inWidth with
    | .error e => .error e
    | .ok (row0, s1) =>
      match readRow s1 inWidth with
      | .error e => .error e
      | .ok (row1, s2) =>
        match pipelineLoop numComponents inWidth i s2 with
        | .error e => .error e
        | .ok (outRows, rest) =>
          .ok (reduceRows numComponents row0 row1 :: outRows, rest)

/-- `convert<numComponents>(FILE*, FILE*, Specification, Specification)`:
run `height >> 1` complete row-pair iterations, then, if `height & 1`, read
one outstanding row and reduce it against itself. -/
def pipeline (numComponents inWidth height : Nat) (stream : List Pix) :
    Except ExitStatus (List (List Pix) × List Pix) :=
  match pipelineLoop numComponents inWidth (height >>> 1) stream with
  | .error e => .error e
  | .ok (outRows, rest) =>
    if height &&& 1 = 1 then
      match readRow rest inWidth with
      | .error e => .error e
      | .ok (row, rest2) =>
        .ok (outRows ++ [reduceRows numComponents row row], rest2)
    else
      .ok (outRows, rest)

/-- The `switch (inHeader.specification.bpp)` dispatch of
`convert(FILE*, FILE*)` (lines 355-379): map bits-per-pixel and image type
to the component count `numComponents` of the instantiated pipeline, or
fail with `unsupportedInputFormat`. -/
def dispatch (bpp imageType : Nat) : Except ExitStatus Nat :=
  if bpp = 8 then
    if imageType = uncompressedGrayScaleImage then .ok 1
    else .error .unsupportedInputFormat
  else if bpp = 16 then
    if imageType = uncompressedGrayScaleImage then .ok 2
    else .error .unsupportedInputFormat
  else if bpp = 24 then
    if imageType = uncompressedTrueColorImage then .ok 3
    else .error .unsupportedInputFormat
  else if bpp = 32 then
    if imageType = uncompressedTrueColorImage then .ok 4
    else .error .unsupportedInputFormat
  else .error .unsupportedInputFormat

/-- The trailer copier of `convert(FILE*, FILE*)` (lines 381-384):
`while (!feof(inFile)) fputc(fgetc(inFile), outFile);`.
The stream is the list of remaining input bytes together with the stdio
end-of-file indicator.  `fgetc` on an exhausted stream returns `EOF` (-1)
and sets the indicator; `fputc` converts its argument to `unsigned char`,
so `fputc(EOF)` emits the byte `255`.  Returns the bytes written. -/
def trailerCopy : Bool → List Nat → List Nat
  | true, _ => []
  | false, [] => [255]
  | false, b :: rest => b % 256 :: trailerCopy false rest

/-- Component `c` of pixel `i` of a row (0 when out of range). -/
def pixComp (row : List Pix) (i c : Nat) : Nat :=
  (row.getD i []).getD c 0

/-- The row that the `i`-th `readRow` call deposits in the reused buffer:
the `W` pixels decoded from the stream at offset `W * i`, with the last
decoded pixel duplicated into the padding slot when `W` is odd. -/
def rowAt (stream : List Pix) (W i : Nat) : List Pix :=
  let decoded := (stream.drop (W * i)).take W
  decoded ++ (if W % 2 = 1 then decoded.drop (W - 1) else [])

/-- The ordered list of validation checks of §3 of the spec, each paired
with the error kind its violation produces: the color-map/dimension/
descriptor-reserved invariants give `badInputFormat`, the
unsupported-feature invariants (color map present, bit depth outside
{8, 16, 24, 32} i.e. below 8, above 32 or not a multiple of 8, attribute
bits outside {0, 8}, non-zero interleave) give `unsupportedInputFormat`. -/
def specChecks (header : Header) : List (Bool × ExitStatus) :=
  [ (header.colorMapType == colorMapTypeNone, .unsupportedInputFormat),
    (header.colorMapSpecification.offset == 0, .badInputFormat),
    (header.colorMapSpecification.size == 0, .badInputFormat),
    (header.colorMapSpecification.bpp == 0, .badInputFormat),
    (decide (header.specification.width > 0), .badInputFormat),
    (decide (header.specification.height > 0), .badInputFormat),
    (decide (header.specification.bpp ≥ 8), .unsupportedInputFormat),
    (decide (header.specification.bpp ≤ 32), .unsupportedInputFormat),
    (header.specification.bpp % 8 == 0, .unsupportedInputFormat),
    (header.specification.descriptor.attributeBits == 0
      || header.specification.descriptor.attributeBits == 8,
      .unsupportedInputFormat),
    (header.specification.descriptor.reserved == 0, .badInputFormat),
    (header.specification.descriptor.interleave == 0, .unsupportedInputFormat) ]

/-- The first check in the list whose condition is violated determines the
error; when every check passes, validation succeeds. -/
def firstViolation : List (Bool × ExitStatus) → Except ExitStatus Unit
  | [] => .ok ()
  | (true, _) :: rest => firstViolation rest
  | (false, e) :: _ => .error e

/-- Modelled from the spec's words in §4.1: validation applies the §3
invariants in a fixed order and the first violated invariant determines
the error kind. -/
def specInspect (header : Header) : Except ExitStatus Unit :=
  firstViolation (specChecks header)

/-- Modelled from the spec's words in §4.4: the dispatch table maps
`bitsPerPixel ∈ {8, 16, 24, 32}` to component count `bitsPerPixel / 8`,
requiring grayscale type for depths 8 and 16 and true-color type for
depths 24 and 32; anything else is `unsupportedInputFormat`. -/
def specDispatch (bpp imageType : Nat) : Except ExitStatus Nat :=
  if (bpp = 8 ∨ bpp = 16 ∨ bpp = 24 ∨ bpp = 32) ∧
      imageType = (if bpp ≤ 16 then uncompressedGrayScaleImage
        else uncompressedTrueColorImage) then
    .ok (bpp / 8)
  else
    .error .unsupportedInputFormat

/-- A concrete header that passes validation, used by witnesses. -/
def sampleHeader : Header :=
  { idLength := 5
    colorMapType := 0
    type := 3
    colorMapSpecification := { offset := 0, size := 0, bpp := 0 }
    specification :=
      { xOrigin := 7
        yOrigin := 9
        width := 3
        height := 5
        bpp := 8
        descriptor :=
          { attributeBits := 0, reserved := 0, direction := 1, interleave := 0 } } }

----------------------------------------------------------------------------
-- Helper lemmas

theorem getD_lt_of_forall {p : Pix} (hb : ∀ x ∈ p, x < 256) (c : Nat) :
    p.getD c 0 < 256 := by
  rw [List.getD_eq_getElem?_getD]
  cases hg : p[c]? with
  | none => simp
  | some v =>
    simp only [Option.getD_some]
    exact hb v (List.getElem?_mem hg)

theorem reducePixel_getD (n : Nat) (a0 a1 b0 b1 : Pix) {c : Nat} (hc : c < n) :
    (reducePixel n a0 a1 b0 b1).getD c 0 =
      ((((((2 + a0.getD c 0) % 65536 + a1.getD c 0) % 65536 + b0.getD c 0) % 65536
        + b1.getD c 0) % 65536) >>> 2) % 256 := by
  unfold reducePixel
  rw [List.getD_eq_getElem?_getD, List.getElem?_map, List.getElem?_range hc]
  simp only [Option.map_some', Option.getD_some]

theorem reducePixel_exact (n : Nat) (a0 a1 b0 b1 : Pix) {c : Nat} (hc : c < n)
    (h0 : a0.getD c 0 < 256) (h1 : a1.getD c 0 < 256)
    (h2 : b0.getD c 0 < 256) (h3 : b1.getD c 0 < 256) :
    (reducePixel n a0 a1 b0 b1).getD c 0 =
      (a0.getD c 0 + a1.getD c 0 + b0.getD c 0 + b1.getD c 0 + 2) >>> 2 := by
  rw [reducePixel_getD n a0 a1 b0 b1 hc]
  rw [Nat.shiftRight_eq_div_pow, Nat.shiftRight_eq_div_pow]
  have e4 : (2 : Nat) ^ 2 = 4 := rfl
  rw [e4]
  omega

theorem reduceRows_length (n : Nat) :
    ∀ (m : Nat) (r0 r1 : List Pix), r0.length = 2 * m → r1.length = 2 * m →
      (reduceRows n r0 r1).length = m := by
  intro m
  induction m with
  | zero =>
    intro r0 r1 h0 h1
    rw [Nat.mul_zero] at h0 h1
    rw [List.length_eq_zero] at h0 h1
    subst h0; subst h1
    rfl
  | succ m ih =>
    intro r0 r1 h0 h1
    match r0, r1 with
    | a0 :: a1 :: t0, b0 :: b1 :: t1 =>
      simp only [List.length_cons] at h0 h1
      have ht0 : t0.length = 2 * m := by omega
      have ht1 : t1.length = 2 * m := by omega
      show (reducePixel n a0 a1 b0 b1 :: reduceRows n t0 t1).length = m + 1
      rw [List.length_cons, ih t0 t1 ht0 ht1]
    | [], _ => simp at h0
    | [a0], _ => simp at h0; omega
    | _ :: _ :: _, [] => simp at h1
    | _ :: _ :: _, [b0] => simp at h1; omega

theorem pixComp_cons_zero (p : Pix) (row : List Pix) (c : Nat) :
    pixComp (p :: row) 0 c = p.getD c 0 := rfl

theorem pixComp_cons_succ (p : Pix) (row : List Pix) (i c : Nat) :
    pixComp (p :: row) (i + 1) c = pixComp row i c := rfl

theorem reduceRows_comp (n : Nat) :
    ∀ (m : Nat) (r0 r1 : List Pix), r0.length = 2 * m → r1.length = 2 * m →
      (∀ p ∈ r0, ∀ x ∈ p, x < 256) → (∀ p ∈ r1, ∀ x ∈ p, x < 256) →
      ∀ k, k < m → ∀ c, c < n →
        pixComp (reduceRows n r0 r1) k c =
          (pixComp r0 (2 * k) c + pixComp r0 (2 * k + 1) c
            + pixComp r1 (2 * k) c + pixComp r1 (2 * k + 1) c + 2) >>> 2 := by
  intro m
  induction m with
  | zero => intro r0 r1 _ _ _ _ k hk; omega
  | succ m ih =>
    intro r0 r1 h0 h1 hb0 hb1 k hk c hc
    match r0, r1 with
    | a0 :: a1 :: t0, b0 :: b1 :: t1 =>
      simp only [List.length_cons] at h0 h1
      have ht0 : t0.length = 2 * m := by omega
      have ht1 : t1.length = 2 * m := by omega
      show pixComp (reducePixel n a0 a1 b0 b1 :: reduceRows n t0 t1) k c = _
      match k with
      | 0 =>
        rw [pixComp_cons_zero]
        rw [reducePixel_exact n a0 a1 b0 b1 hc
          (getD_lt_of_forall (hb0 a0 (by simp)) c)
          (getD_lt_of_forall (hb0 a1 (by simp)) c)
          (getD_lt_of_forall (hb1 b0 (by simp)) c)
          (getD_lt_of_forall (hb1 b1 (by simp)) c)]
        rfl
      | k + 1 =>
        rw [pixComp_cons_succ]
        rw [ih t0 t1 ht0 ht1
          (fun p hp => hb0 p (by simp [hp]))
          (fun p hp => hb1 p (by simp [hp]))
          k (by omega) c hc]
        have e0 : 2 * (k + 1) = 2 * k + 1 + 1 := by ring
        have e1 : 2 * (k + 1) + 1 = 2 * k + 1 + 1 + 1 := by ring
        rw [e1, e0]
        simp only [pixComp_cons_succ]
    | [], _ => simp at h0
    | [a0], _ => simp at h0; omega
    | _ :: _ :: _, [] => simp at h1
    | _ :: _ :: _, [b0] => simp at h1; omega

----------------------------------------------------------------------------
-- Claim theorems: the reducer

/-- C1: for every pair of input rows of the same even length `L = 2 * m`
whose entries are 8-bit components, the reducer's output row has length
`L / 2`, and each component of output pixel `k` equals
`(A[2k] + A[2k+1] + B[2k] + B[2k+1] + 2) >> 2` in exact integer
arithmetic, which is integer division by 4 with round-to-nearest and ties
rounding up. -/
theorem reducer_output_formula (n m : Nat) (r0 r1 : List Pix)
    (h0 : r0.length = 2 * m) (h1 : r1.length = 2 * m)
    (hb0 : ∀ p ∈ r0, ∀ x ∈ p, x < 256) (hb1 : ∀ p ∈ r1, ∀ x ∈ p, x < 256) :
    (reduceRows n r0 r1).length = (2 * m) / 2 ∧
    ∀ k, k < (2 * m) / 2 → ∀ c, c < n →
      pixComp (reduceRows n r0 r1) k c =
        (pixComp r0 (2 * k) c + pixComp r0 (2 * k + 1) c
          + pixComp r1 (2 * k) c + pixComp r1 (2 * k + 1) c + 2) >>> 2 ∧
      pixComp (reduceRows n r0 r1) k c =
        (pixComp r0 (2 * k) c + pixComp r0 (2 * k + 1) c
          + pixComp r1 (2 * k) c + pixComp r1 (2 * k + 1) c + 2) / 4 := by
  have hlen := reduceRows_length n m r0 r1 h0 h1
  constructor
  · rw [hlen]; omega
  · intro k hk c hc
    have hcomp := reduceRows_comp n m r0 r1 h0 h1 hb0 hb1 k (by omega) c hc
    refine ⟨hcomp, ?_⟩
    rw [hcomp, Nat.shiftRight_eq_div_pow]

/-- Witness for C1: the spec's own scenario, a 2×2 grayscale image with
pixel values 10, 20, 30, 40 reducing to the single pixel 25. -/
theorem reducer_output_formula_witness :
    ([[10], [20]] : List Pix).length = 2 * 1 ∧
    ([[30], [40]] : List Pix).length = 2 * 1 ∧
    (∀ p ∈ ([[10], [20]] : List Pix), ∀ x ∈ p, x < 256) ∧
    (∀ p ∈ ([[30], [40]] : List Pix), ∀ x ∈ p, x < 256) ∧
    ((reduceRows 1 [[10], [20]] [[30], [40]]).length = (2 * 1) / 2 ∧
      ∀ k, k < (2 * 1) / 2 → ∀ c, c < 1 →
        pixComp (reduceRows 1 [[10], [20]] [[30], [40]]) k c =
          (pixComp [[10], [20]] (2 * k) c + pixComp [[10], [20]] (2 * k + 1) c
            + pixComp [[30], [40]] (2 * k) c
            + pixComp [[30], [40]] (2 * k + 1) c + 2) >>> 2 ∧
        pixComp (reduceRows 1 [[10], [20]] [[30], [40]]) k c =
          (pixComp [[10], [20]] (2 * k) c + pixComp [[10], [20]] (2 * k + 1) c
            + pixComp [[30], [40]] (2 * k) c
            + pixComp [[30], [40]] (2 * k + 1) c + 2) / 4) ∧
    pixComp (reduceRows 1 [[10], [20]] [[30], [40]]) 0 0 = 25 :=
  ⟨rfl, rfl, by decide, by decide,
    reducer_output_formula 1 1 [[10], [20]] [[30], [40]] rfl rfl
      (by decide) (by decide),
    by decide⟩

/-- C8: a 2×2 block whose four pixels are identical reduces to that very
pixel: constant regions suffer no rounding drift. -/
theorem constant_block_preserved (n : Nat) (p : Pix) (hb : ∀ x ∈ p, x < 256) :
    ∀ c, c < n → (reducePixel n p p p p).getD c 0 = p.getD c 0 := by
  intro c hc
  have hv := getD_lt_of_forall hb c
  rw [reducePixel_exact n p p p p hc hv hv hv hv]
  rw [Nat.shiftRight_eq_div_pow]
  have e4 : (2 : Nat) ^ 2 = 4 := rfl
  rw [e4]
  omega

/-- Witness for C8 at the two-component pixel `[10, 200]`. -/
theorem constant_block_preserved_witness :
    (∀ x ∈ ([10, 200] : Pix), x < 256) ∧
    ∀ c, c < 2 →
      (reducePixel 2 [10, 200] [10, 200] [10, 200] [10, 200]).getD c 0 =
        ([10, 200] : Pix).getD c 0 :=
  ⟨by decide, constant_block_preserved 2 [10, 200] (by decide)⟩

/-- C10: on 8-bit inputs the per-component accumulator value is at most
`2 + 4 * 255 = 1022`, below `2 ^ 16`, the shifted result is at most 255,
and therefore the modelled 16-bit wrap-arounds and the narrowing 8-bit
store change nothing: the output component is the exact mathematical value
of the rounding formula. -/
theorem accumulator_never_overflows (n c : Nat) (a0 a1 b0 b1 : Pix) (hc : c < n)
    (h0 : ∀ x ∈ a0, x < 256) (h1 : ∀ x ∈ a1, x < 256)
    (h2 : ∀ x ∈ b0, x < 256) (h3 : ∀ x ∈ b1, x < 256) :
    2 + a0.getD c 0 + a1.getD c 0 + b0.getD c 0 + b1.getD c 0 ≤ 1022 ∧
    1022 < 65536 ∧
    ((2 + a0.getD c 0 + a1.getD c 0 + b0.getD c 0 + b1.getD c 0) >>> 2) ≤ 255 ∧
    (reducePixel n a0 a1 b0 b1).getD c 0 =
      (2 + a0.getD c 0 + a1.getD c 0 + b0.getD c 0 + b1.getD c 0) >>> 2 := by
  have g0 := getD_lt_of_forall h0 c
  have g1 := getD_lt_of_forall h1 c
  have g2 := getD_lt_of_forall h2 c
  have g3 := getD_lt_of_forall h3 c
  have e4 : (2 : Nat) ^ 2 = 4 := rfl
  refine ⟨by omega, by omega, ?_, ?_⟩
  · rw [Nat.shiftRight_eq_div_pow, e4]
    omega
  · rw [reducePixel_exact n a0 a1 b0 b1 hc g0 g1 g2 g3]
    have e : 2 + a0.getD c 0 + a1.getD c 0 + b0.getD c 0 + b1.getD c 0
        = a0.getD c 0 + a1.getD c 0 + b0.getD c 0 + b1.getD c 0 + 2 := by ring
    rw [e]

----------------------------------------------------------------------------
-- Helper lemmas about the row stream and the pipeline

theorem readRow_ok (stream : List Pix) (W : Nat) (h : W ≤ stream.length) :
    readRow stream W = .ok (rowAt stream W 0, stream.drop W) := by
  simp [readRow, rowAt, h]

theorem readRow_err (stream : List Pix) (W : Nat) (h : stream.length < W) :
    readRow stream W = .error .badInputFormat := by
  unfold readRow
  rw [if_neg (by omega)]

theorem rowAt_shift (stream : List Pix) (W j i : Nat) :
    rowAt (stream.drop (W * j)) W i = rowAt stream W (j + i) := by
  unfold rowAt
  rw [List.drop_drop]
  rw [show W * j + W * i = W * (j + i) from by ring]

theorem rowAt_length (stream : List Pix) (W i : Nat)
    (h : W * i + W ≤ stream.length) :
    (rowAt stream W i).length = 2 * ((W + 1) / 2) := by
  unfold rowAt
  by_cases hw : W % 2 = 1 <;>
    simp [hw, List.length_take, List.length_drop] <;> omega

theorem getD_map_range {α : Type} (f : Nat → α) (q k : Nat) (h : k < q) (d : α) :
    ((List.range q).map f).getD k d = f k := by
  rw [List.getD_eq_getElem?_getD, List.getElem?_map, List.getElem?_range h]
  rfl

theorem pipelineLoop_spec (n W : Nat) :
    ∀ (i : Nat) (stream : List Pix), W * (2 * i) ≤ stream.length →
      pipelineLoop n W i stream =
        .ok ((List.range i).map fun k =>
            reduceRows n (rowAt stream W (2 * k)) (rowAt stream W (2 * k + 1)),
          stream.drop (W * (2 * i))) := by
  intro i
  induction i with
  | zero =>
    intro stream _
    simp [pipelineLoop]
  | succ i ih =>
    intro stream h
    have key : W * (2 * (i + 1)) = W * (2 * i) + W + W := by ring
    have h1 : W ≤ stream.length := by omega
    have h2 : W ≤ (stream.drop W).length := by
      rw [List.length_drop]; omega
    have hdd : (stream.drop W).drop W = stream.drop (W * 2) := by
      rw [List.drop_drop]
      rw [show W + W = W * 2 from by ring]
    have h3 : W * (2 * i) ≤ (stream.drop (W * 2)).length := by
      rw [List.length_drop]; omega
    simp only [pipelineLoop, readRow_ok stream W h1]
    simp only [readRow_ok (stream.drop W) W h2]
    simp only [hdd]
    simp only [ih (stream.drop (W * 2)) h3]
    have e1 : rowAt (stream.drop W) W 0 = rowAt stream W 1 := by
      have e := rowAt_shift stream W 1 0
      rw [Nat.mul_one] at e
      simpa using e
    have e0 : rowAt stream W 0 = rowAt stream W (2 * 0) := by norm_num
    have e1b : rowAt stream W 1 = rowAt stream W (2 * 0 + 1) := by norm_num
    have emap : ((List.range i).map fun k =>
        reduceRows n (rowAt (stream.drop (W * 2)) W (2 * k))
          (rowAt (stream.drop (W * 2)) W (2 * k + 1)))
        = (List.range i).map
          ((fun k => reduceRows n (rowAt stream W (2 * k))
            (rowAt stream W (2 * k + 1))) ∘ Nat.succ) := by
      apply List.map_congr_left
      intro k _
      simp only [Function.comp_apply]
      rw [rowAt_shift stream W 2 (2 * k), rowAt_shift stream W 2 (2 * k + 1)]
      rw [show 2 + 2 * k = 2 * Nat.succ k from by omega,
        show 2 + (2 * k + 1) = 2 * Nat.succ k + 1 from by omega]
    have eout : (stream.drop (W * 2)).drop (W * (2 * i))
        = stream.drop (W * (2 * (i + 1))) := by
      rw [List.drop_drop]
      rw [show W * 2 + W * (2 * i) = W * (2 * (i + 1)) from by ring]
    rw [List.range_succ_eq_map, List.map_cons, List.map_map]
    rw [e1, e0, e1b, emap, eout]

theorem pipeline_odd (n W H : Nat) (stream : List Pix)
    (hodd : H % 2 = 1) (hlen : W * H ≤ stream.length) :
    pipeline n W H stream =
      .ok ((List.range (H / 2)).map (fun k =>
          reduceRows n (rowAt stream W (2 * k)) (rowAt stream W (2 * k + 1)))
        ++ [reduceRows n (rowAt stream W (H - 1)) (rowAt stream W (H - 1))],
        stream.drop (W * H)) := by
  have hsh : H >>> 1 = H / 2 := by rw [Nat.shiftRight_eq_div_pow]
  have hq2 : 2 * (H / 2) ≤ H := by omega
  have hql : W * (2 * (H / 2)) ≤ stream.length :=
    le_trans (Nat.mul_le_mul_left W hq2) hlen
  have hstep : W * (2 * (H / 2)) + W ≤ W * H := by
    have hh : 2 * (H / 2) + 1 ≤ H := by omega
    calc W * (2 * (H / 2)) + W = W * (2 * (H / 2) + 1) := by ring
      _ ≤ W * H := Nat.mul_le_mul_left W hh
  have hrest : W ≤ (stream.drop (W * (2 * (H / 2)))).length := by
    rw [List.length_drop]; omega
  simp only [pipeline, hsh, Nat.and_one_is_mod, hodd,
    pipelineLoop_spec n W (H / 2) stream hql]
  norm_num
  simp only [readRow_ok (stream.drop (W * (2 * (H / 2)))) W hrest]
  have e0 : rowAt (stream.drop (W * (2 * (H / 2)))) W 0 = rowAt stream W (H - 1) := by
    rw [rowAt_shift stream W (2 * (H / 2)) 0]
    rw [show 2 * (H / 2) + 0 = H - 1 from by omega]
  have edrop : (stream.drop (W * (2 * (H / 2)))).drop W = stream.drop (W * H) := by
    rw [List.drop_drop]
    congr 1
    have hh : 2 * (H / 2) + 1 = H := by omega
    calc W * (2 * (H / 2)) + W = W * (2 * (H / 2) + 1) := by ring
      _ = W * H := by rw [hh]
  rw [e0, edrop]

theorem pipeline_even (n W H : Nat) (stream : List Pix)
    (heven : H % 2 = 0) (hlen : W * H ≤ stream.length) :
    pipeline n W H stream =
      .ok ((List.range (H / 2)).map (fun k =>
          reduceRows n (rowAt stream W (2 * k)) (rowAt stream W (2 * k + 1))),
        stream.drop (W * H)) := by
  have hsh : H >>> 1 = H / 2 := by rw [Nat.shiftRight_eq_div_pow]
  have hq2 : 2 * (H / 2) ≤ H := by omega
  have hql : W * (2 * (H / 2)) ≤ stream.length :=
    le_trans (Nat.mul_le_mul_left W hq2) hlen
  simp only [pipeline, hsh, Nat.and_one_is_mod, heven,
    pipelineLoop_spec n W (H / 2) stream hql]
  norm_num
  congr 2
  omega

/-- C3: for a valid width and height and a stream holding at least
`W * H` pixels, the pipeline consumes exactly `H` rows of `W` pixels
(`2 * (H >> 1)` in the paired loop plus one more when `H` is odd), writes
`ceil(H / 2)` output rows, each complete pair `2k, 2k+1` reducing to output
row `k`, and, when `H` is odd, the final output row is the reduction of the
last input row against itself. -/
theorem pipeline_structure (n W H : Nat) (stream : List Pix)
    (hW : 0 < W) (hlen : W * H ≤ stream.length) :
    ∃ outRows,
      pipeline n W H stream = .ok (outRows, stream.drop (W * H)) ∧
      outRows.length = (H + 1) / 2 ∧
      (∀ k, k < H / 2 → outRows.getD k [] =
        reduceRows n (rowAt stream W (2 * k)) (rowAt stream W (2 * k + 1))) ∧
      (H % 2 = 1 → outRows.getD (H / 2) [] =
        reduceRows n (rowAt stream W (H - 1)) (rowAt stream W (H - 1))) := by
  by_cases hodd : H % 2 = 1
  · refine ⟨(List.range (H / 2)).map (fun k =>
        reduceRows n (rowAt stream W (2 * k)) (rowAt stream W (2 * k + 1)))
        ++ [reduceRows n (rowAt stream W (H - 1)) (rowAt stream W (H - 1))],
      pipeline_odd n W H stream hodd hlen, ?_, ?_, ?_⟩
    · rw [List.length_append, List.length_map, List.length_range]
      simp only [List.length_cons, List.length_nil]
      omega
    · intro k hk
      rw [List.getD_append _ _ _ k
        (by rw [List.length_map, List.length_range]; omega)]
      exact getD_map_range _ (H / 2) k hk []
    · intro _
      rw [List.getD_append_right _ _ _ (H / 2)
        (by rw [List.length_map, List.length_range])]
      rw [List.length_map, List.length_range, Nat.sub_self]
      rfl
  · have heven : H % 2 = 0 := by omega
    refine ⟨(List.range (H / 2)).map (fun k =>
        reduceRows n (rowAt stream W (2 * k)) (rowAt stream W (2 * k + 1))),
      pipeline_even n W H stream heven hlen, ?_, ?_, ?_⟩
    · rw [List.length_map, List.length_range]; omega
    · intro k hk
      exact getD_map_range _ (H / 2) k hk []
    · intro hcontra
      exact absurd hcontra hodd

/-- Witness for C3: a 1×3 image (width 1, height 3): one complete row pair
plus a self-paired final row, two output rows in total. -/
theorem pipeline_structure_witness :
    0 < 1 ∧ 1 * 3 ≤ ([[10], [20], [30]] : List Pix).length ∧
    ∃ outRows,
      pipeline 1 1 3 [[10], [20], [30]] =
        .ok (outRows, ([[10], [20], [30]] : List Pix).drop (1 * 3)) ∧
      outRows.length = (3 + 1) / 2 ∧
      (∀ k, k < 3 / 2 → outRows.getD k [] =
        reduceRows 1 (rowAt [[10], [20], [30]] 1 (2 * k))
          (rowAt [[10], [20], [30]] 1 (2 * k + 1))) ∧
      (3 % 2 = 1 → outRows.getD (3 / 2) [] =
        reduceRows 1 (rowAt [[10], [20], [30]] 1 (3 - 1))
          (rowAt [[10], [20], [30]] 1 (3 - 1))) :=
  ⟨Nat.zero_lt_one, by decide,
    pipeline_structure 1 1 3 [[10], [20], [30]] Nat.zero_lt_one (by decide)⟩

/-- C4: for positive width `W`, `readRow` yields a row of length
`(W + 1) & ~1 = 2 * ((W + 1) / 2)` whose first `W` pixels are the pixels
decoded from the stream, with the last decoded pixel duplicated at index
`W` when `W` is odd; it fails with `badInputFormat` when fewer than `W`
pixels are available. -/
theorem readRow_spec (W : Nat) (hW : 0 < W) (stream : List Pix) :
    (W ≤ stream.length →
      readRow stream W = .ok (rowAt stream W 0, stream.drop W) ∧
      (rowAt stream W 0).length = 2 * ((W + 1) / 2) ∧
      (∀ i, i < W → (rowAt stream W 0).getD i [] = stream.getD i []) ∧
      (W % 2 = 1 →
        (rowAt stream W 0).getD W [] = (rowAt stream W 0).getD (W - 1) [])) ∧
    (stream.length < W → readRow stream W = .error .badInputFormat) := by
  constructor
  · intro h
    have htake : (stream.take W).length = W := by
      rw [List.length_take]; omega
    refine ⟨readRow_ok stream W h, rowAt_length stream W 0 (by omega), ?_, ?_⟩
    · intro i hi
      unfold rowAt
      rw [Nat.mul_zero, List.drop_zero]
      rw [List.getD_append _ _ _ i (by omega)]
      rw [List.getD_eq_getElem?_getD, List.getD_eq_getElem?_getD,
        List.getElem?_take]
      rw [if_pos hi]
    · intro hw
      unfold rowAt
      rw [Nat.mul_zero, List.drop_zero]
      simp only [hw, if_pos]
      have hdec : (stream.take W).drop (W - 1) =
          [(stream.take W).getD (W - 1) []] := by
        rw [List.drop_eq_getElem_cons (by omega)]
        rw [show W - 1 + 1 = W from by omega]
        rw [List.drop_eq_nil_of_le (by omega)]
        rw [List.getD_eq_getElem _ _ (by omega)]
      rw [List.getD_append_right _ _ _ W (by omega)]
      rw [List.getD_append _ _ _ (W - 1) (by omega)]
      rw [hdec, htake, Nat.sub_self]
      rfl
  · intro h
    exact readRow_err stream W h

/-- Witness for C4 at odd width 3 (success on a long-enough stream,
duplication of the last pixel, failure on a short stream). -/
theorem readRow_spec_witness :
    0 < 3 ∧
    ((3 ≤ ([[1], [2], [3], [4]] : List Pix).length →
      readRow [[1], [2], [3], [4]] 3 =
        .ok (rowAt [[1], [2], [3], [4]] 3 0,
          ([[1], [2], [3], [4]] : List Pix).drop 3) ∧
      (rowAt [[1], [2], [3], [4]] 3 0).length = 2 * ((3 + 1) / 2) ∧
      (∀ i, i < 3 → (rowAt [[1], [2], [3], [4]] 3 0).getD i [] =
        ([[1], [2], [3], [4]] : List Pix).getD i []) ∧
      (3 % 2 = 1 →
        (rowAt [[1], [2], [3], [4]] 3 0).getD 3 [] =
          (rowAt [[1], [2], [3], [4]] 3 0).getD (3 - 1) [])) ∧
    (([[1], [2], [3], [4]] : List Pix).length < 3 →
      readRow [[1], [2], [3], [4]] 3 = .error .badInputFormat)) :=
  ⟨by decide, readRow_spec 3 (by decide) [[1], [2], [3], [4]]⟩

/-- C9: any two rows produced by `readRow` for the same width `W` (the only
rows the dispatcher ever hands to the reducer, in both the paired and the
odd self-paired case) have the same even length `2 * ((W + 1) >> 1)`, which
is exactly twice the length `(W + 1) >> 1` of the preallocated output row,
so the reducer's entry assertions hold on every reachable call. -/
theorem reducer_preconditions (W : Nat) (hW : 0 < W)
    (s0 s1 r0 r1 t0 t1 : List Pix)
    (h0 : readRow s0 W = .ok (r0, t0)) (h1 : readRow s1 W = .ok (r1, t1)) :
    r0.length = r1.length ∧ r0.length % 2 = 0 ∧
    r0.length = 2 * ((W + 1) >>> 1) ∧
    ∀ n, (reduceRows n r0 r1).length = (W + 1) >>> 1 := by
  have hsh : (W + 1) >>> 1 = (W + 1) / 2 := by rw [Nat.shiftRight_eq_div_pow]
  have len0 : r0.length = 2 * ((W + 1) / 2) := by
    by_cases hle : W ≤ s0.length
    · rw [readRow_ok s0 W hle] at h0
      simp only [Except.ok.injEq, Prod.mk.injEq] at h0
      rw [← h0.1]
      exact rowAt_length s0 W 0 (by omega)
    · rw [readRow_err s0 W (by omega)] at h0
      exact absurd h0 (by simp)
  have len1 : r1.length = 2 * ((W + 1) / 2) := by
    by_cases hle : W ≤ s1.length
    · rw [readRow_ok s1 W hle] at h1
      simp only [Except.ok.injEq, Prod.mk.injEq] at h1
      rw [← h1.1]
      exact rowAt_length s1 W 0 (by omega)
    · rw [readRow_err s1 W (by omega)] at h1
      exact absurd h1 (by simp)
  refine ⟨by omega, by omega, by omega, ?_⟩
  intro n
  rw [hsh]
  exact reduceRows_length n ((W + 1) / 2) r0 r1 len0 len1

/-- Witness for C9 at width 1: both rows are `[[5], [5]]`, of even length 2,
twice the output length 1. -/
theorem reducer_preconditions_witness :
    0 < 1 ∧
    readRow [[5]] 1 = .ok ([[5], [5]], []) ∧
    (([[5], [5]] : List Pix).length = ([[5], [5]] : List Pix).length ∧
      ([[5], [5]] : List Pix).length % 2 = 0 ∧
      ([[5], [5]] : List Pix).length = 2 * ((1 + 1) >>> 1) ∧
      ∀ n, (reduceRows n [[5], [5]] [[5], [5]]).length = (1 + 1) >>> 1) :=
  ⟨Nat.zero_lt_one, by rfl,
    reducer_preconditions 1 Nat.zero_lt_one [[5]] [[5]] [[5], [5]] [[5], [5]] [] []
      (by rfl) (by rfl)⟩

/-- Witness for C10 at maximal components, where the accumulator reaches
exactly 1022. -/
theorem accumulator_never_overflows_witness :
    0 < 1 ∧
    (∀ x ∈ ([255] : Pix), x < 256) ∧
    (2 + ([255] : Pix).getD 0 0 + ([255] : Pix).getD 0 0
      + ([255] : Pix).getD 0 0 + ([255] : Pix).getD 0 0 ≤ 1022 ∧
    1022 < 65536 ∧
    ((2 + ([255] : Pix).getD 0 0 + ([255] : Pix).getD 0 0
      + ([255] : Pix).getD 0 0 + ([255] : Pix).getD 0 0) >>> 2) ≤ 255 ∧
    (reducePixel 1 [255] [255] [255] [255]).getD 0 0 =
      (2 + ([255] : Pix).getD 0 0 + ([255] : Pix).getD 0 0
        + ([255] : Pix).getD 0 0 + ([255] : Pix).getD 0 0) >>> 2) :=
  ⟨Nat.zero_lt_one, by decide,
    accumulator_never_overflows 1 0 [255] [255] [255] [255] Nat.zero_lt_one
      (by decide) (by decide) (by decide) (by decide)⟩

----------------------------------------------------------------------------
-- Claim theorems: header derivation, validation, dispatch, trailer

/-- C2: for every input header that passes validation (fields being 16-bit
words), the derived output header halves `width` and `height` with ceiling
division and `xOrigin` and `yOrigin` with flooring shift, and copies every
other field through unchanged, the whole descriptor byte (and with it the
vertical-direction flag) included. -/
theorem output_header_fields (h : Header)
    (hx : h.specification.xOrigin < 65536) (hy : h.specification.yOrigin < 65536)
    (hw : h.specification.width < 65536) (hh : h.specification.height < 65536)
    (hv : inspect h = .ok ()) :
    (deriveOutputHeader h).specification.width = (h.specification.width + 1) / 2 ∧
    (deriveOutputHeader h).specification.height = (h.specification.height + 1) / 2 ∧
    (deriveOutputHeader h).specification.xOrigin = h.specification.xOrigin / 2 ∧
    (deriveOutputHeader h).specification.yOrigin = h.specification.yOrigin / 2 ∧
    (deriveOutputHeader h).idLength = h.idLength ∧
    (deriveOutputHeader h).colorMapType = h.colorMapType ∧
    (deriveOutputHeader h).type = h.type ∧
    (deriveOutputHeader h).colorMapSpecification = h.colorMapSpecification ∧
    (deriveOutputHeader h).specification.bpp = h.specification.bpp ∧
    (deriveOutputHeader h).specification.descriptor = h.specification.descriptor := by
  have e2 : (2 : Nat) ^ 1 = 2 := rfl
  refine ⟨?_, ?_, ?_, ?_, rfl, rfl, rfl, rfl, rfl, rfl⟩ <;>
    · show (_ >>> 1) % 65536 = _ / 2
      rw [Nat.shiftRight_eq_div_pow, e2]
      exact Nat.mod_eq_of_lt (by omega)

/-- Witness for C2 at a concrete valid header of width 3, height 5,
origin (7, 9). -/
theorem output_header_fields_witness :
    sampleHeader.specification.xOrigin < 65536 ∧
    sampleHeader.specification.yOrigin < 65536 ∧
    sampleHeader.specification.width < 65536 ∧
    sampleHeader.specification.height < 65536 ∧
    inspect sampleHeader = .ok () ∧
    ((deriveOutputHeader sampleHeader).specification.width
        = (sampleHeader.specification.width + 1) / 2 ∧
      (deriveOutputHeader sampleHeader).specification.height
        = (sampleHeader.specification.height + 1) / 2 ∧
      (deriveOutputHeader sampleHeader).specification.xOrigin
        = sampleHeader.specification.xOrigin / 2 ∧
      (deriveOutputHeader sampleHeader).specification.yOrigin
        = sampleHeader.specification.yOrigin / 2 ∧
      (deriveOutputHeader sampleHeader).idLength = sampleHeader.idLength ∧
      (deriveOutputHeader sampleHeader).colorMapType = sampleHeader.colorMapType ∧
      (deriveOutputHeader sampleHeader).type = sampleHeader.type ∧
      (deriveOutputHeader sampleHeader).colorMapSpecification
        = sampleHeader.colorMapSpecification ∧
      (deriveOutputHeader sampleHeader).specification.bpp
        = sampleHeader.specification.bpp ∧
      (deriveOutputHeader sampleHeader).specification.descriptor
        = sampleHeader.specification.descriptor) :=
  ⟨by decide, by decide, by decide, by decide, by rfl,
    output_header_fields sampleHeader (by decide) (by decide) (by decide)
      (by decide) (by rfl)⟩

theorem enforce_firstViolation (c : Bool) (e : ExitStatus)
    (rest : List (Bool × ExitStatus)) (k : Except ExitStatus Unit)
    (hk : k = firstViolation rest) :
    enforce c e k = firstViolation ((c, e) :: rest) := by
  cases c <;> simp [enforce, firstViolation, hk]

/-- C6: header validation is exactly "apply the §3 checks in their fixed
order and report the error kind of the first violated one", with
`badInputFormat` carrying exit code 6 and `unsupportedInputFormat` exit
code 7; which check yields which kind is recorded in `specChecks`. -/
theorem inspect_first_violation :
    (∀ h : Header, inspect h = specInspect h) ∧
    ExitStatus.badInputFormat.toCode = 6 ∧
    ExitStatus.unsupportedInputFormat.toCode = 7 := by
  refine ⟨?_, rfl, rfl⟩
  intro h
  unfold inspect specInspect specChecks
  refine enforce_firstViolation _ _ _ _ ?_
  refine enforce_firstViolation _ _ _ _ ?_
  refine enforce_firstViolation _ _ _ _ ?_
  refine enforce_firstViolation _ _ _ _ ?_
  refine enforce_firstViolation _ _ _ _ ?_
  refine enforce_firstViolation _ _ _ _ ?_
  refine enforce_firstViolation _ _ _ _ ?_
  refine enforce_firstViolation _ _ _ _ ?_
  refine enforce_firstViolation _ _ _ _ ?_
  refine enforce_firstViolation _ _ _ _ ?_
  refine enforce_firstViolation _ _ _ _ ?_
  refine enforce_firstViolation _ _ _ _ ?_
  rfl

/-- C7: the dispatcher maps bits-per-pixel 8 and 16 with the grayscale
image type to component counts 1 and 2, and 24 and 32 with the true-color
type to 3 and 4; any other depth or depth/type mismatch fails with
`unsupportedInputFormat`. -/
theorem dispatch_table :
    ∀ bpp imageType, dispatch bpp imageType = specDispatch bpp imageType := by
  intro bpp ty
  unfold dispatch specDispatch uncompressedGrayScaleImage uncompressedTrueColorImage
  by_cases h8 : bpp = 8
  · subst h8
    by_cases ht : ty = 3 <;> simp [ht]
  by_cases h16 : bpp = 16
  · subst h16
    by_cases ht : ty = 3 <;> simp [h8, ht]
  by_cases h24 : bpp = 24
  · subst h24
    by_cases ht : ty = 2 <;> simp [h8, h16, ht]
  by_cases h32 : bpp = 32
  · subst h32
    by_cases ht : ty = 2 <;> simp [h8, h16, h24, ht]
  simp [h8, h16, h24, h32]

/-- C5 fails on the code: the trailer loop
`while (!feof(inFile)) fputc(fgetc(inFile), outFile);` checks the
end-of-file indicator only before `fgetc` has failed, so the final `fgetc`
returns `EOF` and `fputc` narrows it to the byte 255 before the loop
notices exhaustion: one spurious `0xFF` byte is appended after the
(otherwise intact, in-order) trailer bytes.  Only when the indicator is
already set on entry does the loop copy nothing. -/
theorem trailer_appends_spurious_byte :
    trailerCopy false [1, 2, 3] = [1, 2, 3, 255] ∧
    trailerCopy false [1, 2, 3] ≠ [1, 2, 3] ∧
    trailerCopy false [] = [255] ∧
    trailerCopy true [] = [] := by
  exact ⟨rfl, by decide, rfl, rfl⟩

end HalfSize
